/-
Verification of the two core components of the mkv-to-mp4 backend
(src/src-tauri/src/lib.rs): the ffmpeg binary locator `find_ffmpeg`, the
unique output path generator `get_unique_output_path`, and the relevant
prefix of the `convert_file` command.

The filesystem and subprocess environment are modelled as oracles:
`pathExists` answers the `Path::exists` checks, `probe` answers the
`-version` subprocess invocations (`none` = the spawn itself failed,
`some b` = the process ran and `b` tells whether its exit status was
success), and `homeDir` models `dirs::home_dir()`.

Paths are modelled as UTF-8 strings with Unix `/` separators, mirroring
Rust's `std::path` operations (`parent`, `file_stem`, `join`) for paths
whose components are ordinary names (no `.` or `..` segments), which is
the shape of every path the specification exercises.
-/
import Mathlib

namespace MkvToMp4

/-! ### Path model (Rust `std::path` on Unix-style strings) -/

/-- Split a character list on a separator character; mirrors
`String.splitOn` for a one-character separator, written structurally
over `List Char`. -/
def splitOnCharAux (sep : Char) : List Char → List Char → List (List Char)
  | [], acc => [acc.reverse]
  | c :: cs, acc =>
    if c = sep then acc.reverse :: splitOnCharAux sep cs []
    else splitOnCharAux sep cs (c :: acc)

def splitOnChar (sep : Char) (cs : List Char) : List (List Char) :=
  splitOnCharAux sep cs []

/-- The normal components of a path: split on `/` and drop empty pieces
(repeated or trailing separators) and `.` pieces, as Rust's
`Path::components` normalisation does. -/
def pathComponents (s : String) : List String :=
  ((splitOnChar '/' s.data).map (fun l => String.mk l)).filter
    (fun c => c ≠ "" && c ≠ ".")

/-- A Unix path is absolute when it starts with `/`. -/
def isAbsolutePath (s : String) : Bool :=
  match s.data with
  | '/' :: _ => true
  | _ => false

/-- Rebuild a path string from its absoluteness flag and components. -/
def renderPath (abs : Bool) (cs : List String) : String :=
  (if abs then "/" else "") ++ String.intercalate "/" cs

/-- Rust `Path::parent`: the path without its final component; `none`
when the path is a bare root or empty (no components at all). -/
def rustParent (s : String) : Option String :=
  if pathComponents s = [] then none
  else some (renderPath (isAbsolutePath s) (pathComponents s).dropLast)

/-- Rust `Path::file_name`: the final normal component, when present. -/
def rustFileName (s : String) : Option String :=
  (pathComponents s).getLast?

/-- Rust's `file_stem` on a file name: the portion before the last `.`,
except that a name whose only `.` is its leading character is kept
whole, and a name with no `.` is kept whole. -/
def fileStemOfName (name : String) : String :=
  let parts := splitOnChar '.' name.data
  if parts.length ≤ 1 then name
  else
    let stem := List.intercalate ['.'] parts.dropLast
    if stem = [] then name else String.mk stem

/-- Rust `Path::join` with a relative right operand. -/
def pathJoin (p f : String) : String :=
  if p = "" then f
  else if p.data.getLast? = some '/' then p ++ f
  else p ++ "/" ++ f

/-- `path.parent().unwrap_or_else(|| Path::new("."))` from
`get_unique_output_path`. -/
def parentOrDot (s : String) : String :=
  (rustParent s).getD "."

/-- `path.file_stem().unwrap_or_default().to_string_lossy()` from
`get_unique_output_path`. -/
def stemOf (s : String) : String :=
  match rustFileName s with
  | none => ""
  | some n => fileStemOfName n

/-! ### Unique output path generator (`get_unique_output_path`) -/

/-- The sequence of candidate output paths that the loop in
`get_unique_output_path` walks through: index `0` is
`parent.join(format!("{}.mp4", stem))` and index `n ≥ 1` is
`parent.join(format!("{}_{}.mp4", stem, n))`. -/
def candidate (input : String) (n : Nat) : String :=
  let stem := stemOf input
  pathJoin (parentOrDot input)
    (if n = 0 then stem ++ ".mp4" else stem ++ "_" ++ Nat.repr n ++ ".mp4")

/-- `get_unique_output_path`: the `while output_path.exists()` loop
returns the candidate at the least index whose path does not exist.
The hypothesis `h` records that some candidate is free, which is what
makes the source's unguarded `while` loop terminate. -/
def get_unique_output_path (fs : String → Bool) (input : String)
    (h : ∃ n, fs (candidate input n) = false) : String :=
  candidate input (Nat.find h)

/-- Fuel-indexed unfolding of the source's `while output_path.exists()`
loop, one constructor per loop test: at index `i` with fuel left, test
`candidate input i`; if it exists, move to index `i+1`. -/
def uniqueLoopFuel (fs : String → Bool) (input : String) :
    Nat → Nat → Option String
  | _, 0 => none
  | i, fuel + 1 =>
    if fs (candidate input i) then uniqueLoopFuel fs input (i + 1) fuel
    else some (candidate input i)

/-! ### Binary locator (`find_ffmpeg`) -/

/-- Environment for the locator: filesystem existence oracle, version
probe oracle (`none` = `Command::output()` returned `Err`, i.e. the
spawn failed; `some b` = it returned `Ok` with exit success `b`), and
the home directory as reported by `dirs::home_dir()`. -/
structure Env where
  pathExists : String → Bool
  probe : String → Option Bool
  homeDir : Option String

/-- `if let Ok(output) = result { if output.status.success() { ... } }`:
the probe counts as successful exactly when the spawn succeeded and the
process exited with status 0. -/
def probeOk (env : Env) (p : String) : Bool :=
  match env.probe p with
  | some b => b
  | none => false

/-- The per-candidate test in the loop of `find_ffmpeg`: existence check
or the bare-command exemption `path == "ffmpeg"`, followed by a
successful probe. -/
def candidateMatches (env : Env) (p : String) : Bool :=
  (env.pathExists p || p == "ffmpeg") && probeOk env p

/-- The `for path in FFMPEG_PATHS` loop of `find_ffmpeg`. -/
def findInList (env : Env) : List String → Option String
  | [] => none
  | p :: rest =>
    if (env.pathExists p || p == "ffmpeg") && probeOk env p then some p
    else findInList env rest

/-- `home.join(".local/bin/ffmpeg")`, the fallback location for a
previously self-installed binary (macOS/Linux variant). -/
def localFfmpeg (home : String) : String :=
  pathJoin home ".local/bin/ffmpeg"

/-- The fallback half of `find_ffmpeg`: when a home directory is known,
apply the same existence-then-probe check to the user-local install
path. -/
def fallbackResult (env : Env) : Option String :=
  match env.homeDir with
  | none => none
  | some home =>
    let lf := localFfmpeg home
    if env.pathExists lf && probeOk env lf then some lf else none

/-- `find_ffmpeg`: first the platform candidate list in order, then the
user-local fallback, returning `None` when nothing matches. -/
def find_ffmpeg (env : Env) (paths : List String) : Option String :=
  match findInList env paths with
  | some p => some p
  | none => fallbackResult env

/-- `FFMPEG_PATHS` on macOS. -/
def FFMPEG_PATHS_MACOS : List String :=
  ["/opt/homebrew/bin/ffmpeg", "/usr/local/bin/ffmpeg", "/usr/bin/ffmpeg"]

/-- `FFMPEG_PATHS` on Windows. -/
def FFMPEG_PATHS_WINDOWS : List String :=
  ["ffmpeg", "C:\\Program Files\\ffmpeg\\bin\\ffmpeg.exe",
   "C:\\ffmpeg\\bin\\ffmpeg.exe"]

/-- `FFMPEG_PATHS` on Linux. -/
def FFMPEG_PATHS_LINUX : List String :=
  ["/usr/bin/ffmpeg", "/usr/local/bin/ffmpeg", "/snap/bin/ffmpeg"]

/-! ### Effect traces

Instrumented variants of the two functions that additionally log every
external operation they perform, in order. The event type also provides
write-class constructors so that "writes nothing" is a provable absence
rather than a vacuity of the event type. -/

/-- One external operation of the backend: an existence check, a
`-version` probe spawn, a conversion spawn, or a file write/removal
(the latter two are never emitted by the locator or the path
generator; they exist so that this is checkable). -/
inductive FsEffect where
  | readExists (p : String)
  | spawnProbe (p : String)
  | spawnConvert (ffmpegPath input output : String)
  | writeFile (p : String)
  | removeFile (p : String)
  deriving DecidableEq, Repr

/-- Whether an effect can change which paths exist. A conversion spawn
counts: the spawned ffmpeg process creates the output file. -/
def FsEffect.isWrite : FsEffect → Bool
  | .readExists _ => false
  | .spawnProbe _ => false
  | .spawnConvert _ _ _ => true
  | .writeFile _ => true
  | .removeFile _ => true

/-- How one effect transforms the set of existing paths: reads and
probes change nothing; writes add a path, removals delete one, and a
conversion spawn may create its output file. -/
def applyEffect : FsEffect → (String → Bool) → (String → Bool)
  | .readExists _, fs => fs
  | .spawnProbe _, fs => fs
  | .spawnConvert _ _ out, fs => fun q => q == out || fs q
  | .writeFile p, fs => fun q => q == p || fs q
  | .removeFile p, fs => fun q => q != p && fs q

def applyEffects (es : List FsEffect) (fs : String → Bool) : String → Bool :=
  es.foldl (fun s e => applyEffect e s) fs

/-- Traced `for path in FFMPEG_PATHS` loop: `path_buf.exists()` is
evaluated on every iteration (it is the left operand of `||`), and the
probe is spawned whenever the existence-or-bare-command test passes. -/
def findInListT (env : Env) : List String → Option String × List FsEffect
  | [] => (none, [])
  | p :: rest =>
    if env.pathExists p || p == "ffmpeg" then
      if probeOk env p then (some p, [.readExists p, .spawnProbe p])
      else
        let r := findInListT env rest
        (r.1, .readExists p :: .spawnProbe p :: r.2)
    else
      let r := findInListT env rest
      (r.1, .readExists p :: r.2)

/-- Traced `find_ffmpeg`: list loop, then (when no home directory is
known, nothing; otherwise) the fallback's existence check and, when it
passes, its probe. -/
def find_ffmpegT (env : Env) (paths : List String) :
    Option String × List FsEffect :=
  match findInListT env paths with
  | (some p, es) => (some p, es)
  | (none, es) =>
    match env.homeDir with
    | none => (none, es)
    | some home =>
      let lf := localFfmpeg home
      if env.pathExists lf then
        if probeOk env lf then (some lf, es ++ [.readExists lf, .spawnProbe lf])
        else (none, es ++ [.readExists lf, .spawnProbe lf])
      else (none, es ++ [.readExists lf])

/-- Traced `get_unique_output_path`: the loop performs one
`output_path.exists()` check per candidate, on candidates `0` through
the returned index. -/
def get_unique_output_pathT (fs : String → Bool) (input : String)
    (h : ∃ n, fs (candidate input n) = false) : String × List FsEffect :=
  (candidate input (Nat.find h),
   (List.range (Nat.find h + 1)).map (fun n => .readExists (candidate input n)))

/-! ### The `convert_file` command -/

/-- Outcome of `Command::output()` for the conversion invocation:
`ok success stderrText` when the spawn succeeded (with the exit status
and captured stderr), `spawnFailure msg` when it did not. -/
inductive RunOutcome where
  | ok (success : Bool) (stderrText : String)
  | spawnFailure (msg : String)

/-- Environment of `convert_file`: the locator environment plus the
conversion subprocess oracle, keyed by ffmpeg path, input and output. -/
structure ConvEnv extends Env where
  runFfmpeg : String → String → String → RunOutcome

/-- `convert_file`: locate ffmpeg (erroring with "ffmpeg not found"
when the locator yields `None`), compute the unique output path, run
the conversion, and map the three outcomes to `Ok`/`Err` exactly as the
source's `match result` does. -/
def convert_file (env : ConvEnv) (paths : List String) (input : String)
    (h : ∃ n, env.pathExists (candidate input n) = false) :
    Except String String :=
  match find_ffmpeg env.toEnv paths with
  | none => .error "ffmpeg not found"
  | some fp =>
    let out := get_unique_output_path env.pathExists input h
    match env.runFfmpeg fp input out with
    | .ok true _ => .ok out
    | .ok false stderrText => .error ("ffmpeg failed: " ++ stderrText)
    | .spawnFailure e => .error ("Failed to run ffmpeg: " ++ e)

/-- Traced `convert_file`, logging the locator's effects, then (only
when a binary was found) the path generator's existence checks and the
conversion spawn. -/
def convert_fileT (env : ConvEnv) (paths : List String) (input : String)
    (h : ∃ n, env.pathExists (candidate input n) = false) :
    Except String String × List FsEffect :=
  match find_ffmpegT env.toEnv paths with
  | (none, es) => (.error "ffmpeg not found", es)
  | (some fp, es) =>
    let outT := get_unique_output_pathT env.pathExists input h
    let res : Except String String :=
      match env.runFfmpeg fp input outT.1 with
      | .ok true _ => .ok outT.1
      | .ok false stderrText => .error ("ffmpeg failed: " ++ stderrText)
      | .spawnFailure e => .error ("Failed to run ffmpeg: " ++ e)
    (res, es ++ outT.2 ++ [.spawnConvert fp input outT.1])

/-! ### Decimal rendering is injective

`format!("{}_{}.mp4", stem, counter)` renders the counter in decimal
(`Nat.repr`), so distinct counters give distinct candidate paths. We
prove this by recovering the counter from its digit string. -/

/-- Decimal valuation of a digit character list. -/
def digitsVal (cs : List Char) : Nat :=
  List.foldl (fun a c => 10 * a + (c.toNat - 48)) 0 cs

theorem digitChar_val (d : Nat) (hd : d < 10) :
    (Nat.digitChar d).toNat - 48 = d := by
  revert hd; revert d; decide

theorem toDigitsCore_acc (fuel : Nat) :
    ∀ (n : Nat) (acc : List Char),
      Nat.toDigitsCore 10 fuel n acc = Nat.toDigitsCore 10 fuel n [] ++ acc := by
  induction fuel with
  | zero => intro n acc; simp [Nat.toDigitsCore]
  | succ fuel ih =>
    intro n acc
    by_cases h : n / 10 = 0
    · simp [Nat.toDigitsCore, h]
    · simp only [Nat.toDigitsCore, h, if_false]
      rw [ih (n / 10) (Nat.digitChar (n % 10) :: acc),
        ih (n / 10) [Nat.digitChar (n % 10)], List.append_assoc]
      rfl

theorem digitsVal_toDigitsCore (n : Nat) :
    ∀ fuel, n < fuel → digitsVal (Nat.toDigitsCore 10 fuel n []) = n := by
  induction n using Nat.strong_induction_on with
  | _ n ih =>
    intro fuel hfuel
    match fuel with
    | fuel + 1 =>
      by_cases h : n / 10 = 0
      · have hn : n < 10 := (Nat.div_eq_zero_iff (by norm_num)).mp h
        simp [Nat.toDigitsCore, h, digitsVal, digitChar_val n hn,
          Nat.mod_eq_of_lt hn]
      · have hn10 : 0 < n := by
          rcases Nat.eq_zero_or_pos n with h0 | h0
          · exact absurd (by simp [h0]) h
          · exact h0
        have hdivlt : n / 10 < n := Nat.div_lt_self hn10 (by norm_num)
        have hdivfuel : n / 10 < fuel :=
          Nat.lt_of_lt_of_le hdivlt (Nat.lt_succ_iff.mp hfuel)
        simp only [Nat.toDigitsCore, h, if_false]
        rw [toDigitsCore_acc fuel (n / 10) [Nat.digitChar (n % 10)]]
        unfold digitsVal
        rw [List.foldl_append]
        have := ih (n / 10) hdivlt fuel hdivfuel
        unfold digitsVal at this
        simp only [this, List.foldl_cons, List.foldl_nil,
          digitChar_val (n % 10) (Nat.mod_lt n (by norm_num))]
        exact Nat.div_add_mod n 10

theorem repr_inj {m n : Nat} (h : Nat.repr m = Nat.repr n) : m = n := by
  have hdata : (Nat.toDigits 10 m) = (Nat.toDigits 10 n) := by
    have := congrArg String.data h
    simpa [Nat.repr, List.asString] using this
  have hm := digitsVal_toDigitsCore m (m + 1) (Nat.lt_succ_self m)
  have hn := digitsVal_toDigitsCore n (n + 1) (Nat.lt_succ_self n)
  unfold Nat.toDigits at hdata
  rw [← hm, ← hn, hdata]

/-! ### Injectivity of the candidate sequence -/

theorem string_append_cancel_left {s a b : String} (h : s ++ a = s ++ b) :
    a = b := by
  apply String.ext
  have := congrArg String.data h
  simp only [String.data_append] at this
  exact List.append_cancel_left this

theorem pathJoin_right_inj {p a b : String} (h : pathJoin p a = pathJoin p b) :
    a = b := by
  unfold pathJoin at h
  by_cases hp : p = ""
  · simpa [hp] using h
  · by_cases hl : p.data.getLast? = some '/'
    · simp only [hp, if_false, hl, if_true] at h
      exact string_append_cancel_left h
    · simp only [hp, if_false, hl, if_true] at h
      exact string_append_cancel_left h

theorem candidateName_inj (stem : String) {m n : Nat}
    (h : (if m = 0 then stem ++ ".mp4" else stem ++ "_" ++ Nat.repr m ++ ".mp4")
       = (if n = 0 then stem ++ ".mp4" else stem ++ "_" ++ Nat.repr n ++ ".mp4")) :
    m = n := by
  match m, n with
  | 0, 0 => rfl
  | 0, n + 1 =>
    exfalso
    rw [if_pos rfl, if_neg (Nat.succ_ne_zero n)] at h
    simp only [String.append_assoc] at h
    have h2 := string_append_cancel_left h
    have hlen := congrArg String.length h2
    simp only [String.length_append] at hlen
    rw [show (".mp4" : String).length = 4 from rfl,
      show ("_" : String).length = 1 from rfl] at hlen
    omega
  | m + 1, 0 =>
    exfalso
    rw [if_pos rfl, if_neg (Nat.succ_ne_zero m)] at h
    simp only [String.append_assoc] at h
    have h2 := string_append_cancel_left h
    have hlen := congrArg String.length h2
    simp only [String.length_append] at hlen
    rw [show (".mp4" : String).length = 4 from rfl,
      show ("_" : String).length = 1 from rfl] at hlen
    omega
  | m + 1, n + 1 =>
    rw [if_neg (Nat.succ_ne_zero m), if_neg (Nat.succ_ne_zero n)] at h
    simp only [String.append_assoc] at h
    have h2 := string_append_cancel_left (string_append_cancel_left h)
    have h3 := congrArg String.data h2
    simp only [String.data_append] at h3
    have h4 := List.append_cancel_right h3
    exact repr_inj (String.ext h4)

theorem candidate_inj (input : String) {m n : Nat}
    (h : candidate input m = candidate input n) : m = n :=
  candidateName_inj (stemOf input) (pathJoin_right_inj h)

/-! ### Helper lemmas -/

theorem findInList_eq_find? (env : Env) (l : List String) :
    findInList env l = l.find? (candidateMatches env) := by
  induction l with
  | nil => rfl
  | cons p rest ih =>
    cases hp : candidateMatches env p with
    | true =>
      have hp' := hp; unfold candidateMatches at hp'
      simp [findInList, List.find?, hp, hp']
    | false =>
      have hp' := hp; unfold candidateMatches at hp'
      simp [findInList, List.find?, hp, hp', ih]

theorem find_ffmpeg_orElse (env : Env) (l : List String) :
    find_ffmpeg env l
      = (l.find? (candidateMatches env)).orElse (fun _ => fallbackResult env) := by
  unfold find_ffmpeg
  rw [findInList_eq_find?]
  cases l.find? (candidateMatches env) <;> rfl

theorem uniqueLoopFuel_eq (fs : String → Bool) (input : String) (n : Nat)
    (hfree : fs (candidate input n) = false)
    (hbusy : ∀ m, m < n → fs (candidate input m) = true) :
    ∀ fuel i, i ≤ n → n - i < fuel →
      uniqueLoopFuel fs input i fuel = some (candidate input n) := by
  intro fuel
  induction fuel with
  | zero => intro i _ hlt; omega
  | succ fuel ih =>
    intro i hin hlt
    rcases Nat.lt_or_ge i n with hi | hi
    · have : fs (candidate input i) = true := hbusy i hi
      simp only [uniqueLoopFuel, this, if_true]
      exact ih (i + 1) hi (by omega)
    · have : i = n := Nat.le_antisymm hin hi
      subst this
      simp [uniqueLoopFuel, hfree]

theorem findInListT_fst (env : Env) (l : List String) :
    (findInListT env l).1 = findInList env l := by
  induction l with
  | nil => rfl
  | cons p rest ih =>
    by_cases hex : (env.pathExists p || p == "ffmpeg") = true
    · by_cases hpr : probeOk env p = true
      · simp [findInListT, findInList, hex, hpr]
      · rw [Bool.not_eq_true] at hpr
        simp [findInListT, findInList, hex, hpr, ih]
    · rw [Bool.not_eq_true] at hex
      simp [findInListT, findInList, hex, ih]

theorem find_ffmpegT_fst (env : Env) (l : List String) :
    (find_ffmpegT env l).1 = find_ffmpeg env l := by
  unfold find_ffmpegT find_ffmpeg fallbackResult
  have h := findInListT_fst env l
  rcases hT : findInListT env l with ⟨r, es⟩
  rw [hT] at h
  simp only at h
  cases r with
  | some p => simp [← h]
  | none =>
    rw [← h]
    cases env.homeDir with
    | none => rfl
    | some home =>
      by_cases hex : env.pathExists (localFfmpeg home) = true
      · by_cases hpr : probeOk env (localFfmpeg home) = true
        · simp [hex, hpr]
        · rw [Bool.not_eq_true] at hpr; simp [hex, hpr]
      · rw [Bool.not_eq_true] at hex; simp [hex]

theorem findInListT_no_write (env : Env) (l : List String) :
    ∀ e ∈ (findInListT env l).2, e.isWrite = false := by
  induction l with
  | nil => intro e he; simp [findInListT] at he
  | cons p rest ih =>
    intro e he
    by_cases hex : (env.pathExists p || p == "ffmpeg") = true
    · by_cases hpr : probeOk env p = true
      · simp [findInListT, hex, hpr] at he
        rcases he with rfl | rfl <;> rfl
      · rw [Bool.not_eq_true] at hpr
        simp [findInListT, hex, hpr] at he
        rcases he with rfl | rfl | he
        · rfl
        · rfl
        · exact ih e he
    · rw [Bool.not_eq_true] at hex
      simp [findInListT, hex] at he
      rcases he with rfl | he
      · rfl
      · exact ih e he

theorem find_ffmpegT_no_write (env : Env) (l : List String) :
    ∀ e ∈ (find_ffmpegT env l).2, e.isWrite = false := by
  intro e he
  have hl := findInListT_no_write env l
  unfold find_ffmpegT at he
  rcases hT : findInListT env l with ⟨r, es⟩
  rw [hT] at he hl
  cases r with
  | some p => exact hl e he
  | none =>
    cases hh : env.homeDir with
    | none => rw [hh] at he; exact hl e he
    | some home =>
      rw [hh] at he
      by_cases hex : env.pathExists (localFfmpeg home) = true
      · by_cases hpr : probeOk env (localFfmpeg home) = true
        · simp [hex, hpr] at he
          rcases he with he | rfl | rfl
          · exact hl e he
          · rfl
          · rfl
        · rw [Bool.not_eq_true] at hpr
          simp [hex, hpr] at he
          rcases he with he | rfl | rfl
          · exact hl e he
          · rfl
          · rfl
      · rw [Bool.not_eq_true] at hex
        simp [hex] at he
        rcases he with he | rfl
        · exact hl e he
        · rfl

theorem get_unique_output_pathT_no_write (fs : String → Bool) (input : String)
    (h : ∃ n, fs (candidate input n) = false) :
    ∀ e ∈ (get_unique_output_pathT fs input h).2, e.isWrite = false := by
  intro e he
  simp only [get_unique_output_pathT, List.mem_map] at he
  rcases he with ⟨n, _, rfl⟩
  rfl

theorem applyEffects_of_no_write (es : List FsEffect) (fs : String → Bool)
    (h : ∀ e ∈ es, e.isWrite = false) : applyEffects es fs = fs := by
  induction es generalizing fs with
  | nil => rfl
  | cons e es ih =>
    have he : e.isWrite = false := h e (List.mem_cons_self e es)
    have hstep : applyEffect e fs = fs := by
      cases e <;> simp_all [FsEffect.isWrite, applyEffect]
    unfold applyEffects at ih ⊢
    rw [List.foldl_cons, hstep]
    exact ih fs (fun e' he' => h e' (List.mem_cons_of_mem e he'))

theorem get_unique_spec (fs : String → Bool) (input : String)
    (h : ∃ n, fs (candidate input n) = false) :
    ∃ n, get_unique_output_path fs input h = candidate input n
      ∧ fs (candidate input n) = false
      ∧ (∀ m, m < n → fs (candidate input m) = true)
      ∧ ∀ fuel, n < fuel →
          uniqueLoopFuel fs input 0 fuel = some (candidate input n) := by
  have hbusy : ∀ m, m < Nat.find h → fs (candidate input m) = true := by
    intro m hm
    have hmin := Nat.find_min h hm
    revert hmin
    cases fs (candidate input m) <;> simp
  refine ⟨Nat.find h, rfl, Nat.find_spec h, hbusy, ?_⟩
  intro fuel hfuel
  exact uniqueLoopFuel_eq fs input (Nat.find h) (Nat.find_spec h) hbusy
    fuel 0 (Nat.zero_le _) (by omega)

theorem findInList_prefix (env : Env) (p : String)
    (hp : candidateMatches env p = true) :
    ∀ (l1 rest : List String), ∃ r, findInList env (l1 ++ p :: rest) = some r
      ∧ candidateMatches env r = true ∧ r ∈ l1 ++ [p] := by
  intro l1
  induction l1 with
  | nil =>
    intro rest
    have hp' := hp; unfold candidateMatches at hp'
    exact ⟨p, by simp [findInList, hp'], hp, by simp⟩
  | cons a as ih =>
    intro rest
    cases ha : candidateMatches env a with
    | true =>
      have ha' := ha; unfold candidateMatches at ha'
      exact ⟨a, by simp [findInList, ha'], ha, by simp⟩
    | false =>
      have ha' := ha; unfold candidateMatches at ha'
      obtain ⟨r, hr1, hr2, hr3⟩ := ih rest
      exact ⟨r, by simp [findInList, ha', hr1], hr2, by simp [hr3]⟩

/-! ### Claims -/

/-- C1: for every input path and filesystem state, `get_unique_output_path`
first forms `parent/(stem + ".mp4")` and, while the current candidate exists,
moves on to `parent/(stem + "_" + counter + ".mp4")` with the counter starting
at 1 and incrementing by 1: the result is the candidate at the least free
index, every earlier candidate exists, and the source's `while` loop
(fuel-indexed here) returns exactly that candidate whenever it is given enough
fuel to reach it; in particular, when `/tmp/video.mp4` and `/tmp/video_1.mp4`
exist but `/tmp/video_2.mp4` does not, converting `/tmp/video.mov` yields
`/tmp/video_2.mp4`. -/
theorem c1_first_free_candidate (fs : String → Bool) (input : String)
    (h : ∃ n, fs (candidate input n) = false) :
    (∃ n, get_unique_output_path fs input h = candidate input n
      ∧ fs (candidate input n) = false
      ∧ (∀ m, m < n → fs (candidate input m) = true)
      ∧ ∀ fuel, n < fuel →
          uniqueLoopFuel fs input 0 fuel = some (candidate input n))
    ∧ ∀ h2 : ∃ n, (fun p => p == "/tmp/video.mp4" || p == "/tmp/video_1.mp4")
          (candidate "/tmp/video.mov" n) = false,
        get_unique_output_path
          (fun p => p == "/tmp/video.mp4" || p == "/tmp/video_1.mp4")
          "/tmp/video.mov" h2 = "/tmp/video_2.mp4" := by
  constructor
  · exact get_unique_spec fs input h
  · intro h2
    have hfind : Nat.find h2 = 2 := (Nat.find_eq_iff h2).mpr (by decide)
    unfold get_unique_output_path
    rw [hfind]
    decide

/-- C1 witness: a state where no candidate exists at all, so the very first
candidate is returned. -/
theorem c1_witness :
    (∃ n, (fun _ : String => false) (candidate "/tmp/a.mkv" n) = false)
    ∧ (∃ n, get_unique_output_path (fun _ : String => false) "/tmp/a.mkv"
          ⟨0, rfl⟩ = candidate "/tmp/a.mkv" n
        ∧ (fun _ : String => false) (candidate "/tmp/a.mkv" n) = false
        ∧ (∀ m, m < n → (fun _ : String => false) (candidate "/tmp/a.mkv" m) = true)
        ∧ ∀ fuel, n < fuel →
            uniqueLoopFuel (fun _ : String => false) "/tmp/a.mkv" 0 fuel
              = some (candidate "/tmp/a.mkv" n)) :=
  ⟨⟨0, rfl⟩,
   (c1_first_free_candidate (fun _ : String => false) "/tmp/a.mkv" ⟨0, rfl⟩).1⟩

/-- C5: the path returned by `get_unique_output_path` does not exist in the
filesystem state observed by its existence checks. -/
theorem c5_result_not_exists (fs : String → Bool) (input : String)
    (h : ∃ n, fs (candidate input n) = false) :
    fs (get_unique_output_path fs input h) = false :=
  Nat.find_spec h

/-- C5 witness. -/
theorem c5_witness :
    (∃ n, (fun _ : String => false) (candidate "/tmp/a.mkv" n) = false)
    ∧ (fun _ : String => false)
        (get_unique_output_path (fun _ : String => false) "/tmp/a.mkv" ⟨0, rfl⟩)
        = false :=
  ⟨⟨0, rfl⟩, c5_result_not_exists (fun _ : String => false) "/tmp/a.mkv" ⟨0, rfl⟩⟩

/-- C6: the input decomposes into a parent directory, defaulting to `"."`
exactly when `parent()` reports none, and a stem that is the file name with
its final extension removed, empty when there is no file name; for the
extensionless input `/tmp/clip` the stem is `"clip"` and the first candidate
is `/tmp/clip.mp4`. -/
theorem c6_decomposition (input : String) (hnp : rustParent input = none) :
    parentOrDot input = "."
    ∧ (∀ s name, rustFileName s = some name → stemOf s = fileStemOfName name)
    ∧ (∀ s, rustFileName s = none → stemOf s = "")
    ∧ stemOf "/tmp/clip" = "clip"
    ∧ candidate "/tmp/clip" 0 = "/tmp/clip.mp4" := by
  refine ⟨?_, ?_, ?_, by decide, by decide⟩
  · unfold parentOrDot
    rw [hnp]
    rfl
  · intro s name hs
    unfold stemOf
    rw [hs]
  · intro s hs
    unfold stemOf
    rw [hs]

/-- C6 witness: the bare root has no parent. -/
theorem c6_witness :
    rustParent "/" = none
    ∧ (parentOrDot "/" = "."
      ∧ (∀ s name, rustFileName s = some name → stemOf s = fileStemOfName name)
      ∧ (∀ s, rustFileName s = none → stemOf s = "")
      ∧ stemOf "/tmp/clip" = "clip"
      ∧ candidate "/tmp/clip" 0 = "/tmp/clip.mp4") :=
  ⟨by decide, c6_decomposition "/" (by decide)⟩

/-- C7: `get_unique_output_path` is a function of the observed filesystem
state: two calls against the same state return the same path. -/
theorem c7_idempotent (fs : String → Bool) (input : String)
    (h h2 : ∃ n, fs (candidate input n) = false) :
    get_unique_output_path fs input h = get_unique_output_path fs input h2 := rfl

/-- C7 witness. -/
theorem c7_witness :
    (∃ n, (fun _ : String => false) (candidate "/tmp/a.mkv" n) = false)
    ∧ get_unique_output_path (fun _ : String => false) "/tmp/a.mkv" ⟨0, rfl⟩
        = get_unique_output_path (fun _ : String => false) "/tmp/a.mkv" ⟨0, rfl⟩ :=
  ⟨⟨0, rfl⟩,
   c7_idempotent (fun _ : String => false) "/tmp/a.mkv" ⟨0, rfl⟩ ⟨0, rfl⟩⟩

/-- C2: `find_ffmpeg` scans the candidate list in its given order and only
afterwards the fallback user-local path: it equals first-match search over
the list followed by the fallback check; when every listed candidate fails
the match test, the fallback decides the result; and when two candidates `p`
(earlier) and `q` (later) both match, the returned path is a matching entry
no later than `p` — never `q`, never the fallback. -/
theorem c2_order_and_priority (env : Env) (l1 l2 l3 : List String)
    (p q : String) (hp : candidateMatches env p = true)
    (hq : candidateMatches env q = true) :
    (∀ l : List String, find_ffmpeg env l
        = (l.find? (candidateMatches env)).orElse (fun _ => fallbackResult env))
    ∧ (∀ l : List String, (∀ x ∈ l, candidateMatches env x = false) →
        find_ffmpeg env l = fallbackResult env)
    ∧ ∃ r, find_ffmpeg env (l1 ++ p :: (l2 ++ q :: l3)) = some r
        ∧ candidateMatches env r = true ∧ r ∈ l1 ++ [p] := by
  refine ⟨find_ffmpeg_orElse env, ?_, ?_⟩
  · intro l hall
    rw [find_ffmpeg_orElse env l, List.find?_eq_none.mpr ?_]
    · rfl
    · intro x hx
      simp [hall x hx]
  · obtain ⟨r, hr1, hr2, hr3⟩ := findInList_prefix env p hp l1 (l2 ++ q :: l3)
    refine ⟨r, ?_, hr2, hr3⟩
    unfold find_ffmpeg
    rw [hr1]

/-- C2 witness: two absolute paths that both exist and probe successfully. -/
theorem c2_witness :
    candidateMatches ⟨fun _ => true, fun _ => some true, none⟩ "/a/ffm" = true
    ∧ candidateMatches ⟨fun _ => true, fun _ => some true, none⟩ "/b/ffm" = true
    ∧ ((∀ l : List String, find_ffmpeg ⟨fun _ => true, fun _ => some true, none⟩ l
          = (l.find? (candidateMatches ⟨fun _ => true, fun _ => some true, none⟩)).orElse
              (fun _ => fallbackResult ⟨fun _ => true, fun _ => some true, none⟩))
      ∧ (∀ l : List String,
          (∀ x ∈ l, candidateMatches ⟨fun _ => true, fun _ => some true, none⟩ x = false) →
          find_ffmpeg ⟨fun _ => true, fun _ => some true, none⟩ l
            = fallbackResult ⟨fun _ => true, fun _ => some true, none⟩)
      ∧ ∃ r, find_ffmpeg ⟨fun _ => true, fun _ => some true, none⟩
            ([] ++ "/a/ffm" :: ([] ++ "/b/ffm" :: [])) = some r
          ∧ candidateMatches ⟨fun _ => true, fun _ => some true, none⟩ r = true
          ∧ r ∈ [] ++ ["/a/ffm"]) :=
  ⟨by decide, by decide,
   c2_order_and_priority ⟨fun _ => true, fun _ => some true, none⟩ [] [] []
     "/a/ffm" "/b/ffm" (by decide) (by decide)⟩

/-- C3: when no listed candidate path exists, the bare command `ffmpeg` does
not probe successfully, and the fallback location does not pass its
existence-and-probe check, `find_ffmpeg` returns `none` — a normal value of
its option result type, not an error. -/
theorem c3_not_found (env : Env) (paths : List String)
    (h1 : ∀ x ∈ paths, env.pathExists x = false)
    (h2 : probeOk env "ffmpeg" = false)
    (h3 : ∀ home, env.homeDir = some home →
        env.pathExists (localFfmpeg home) = true →
        probeOk env (localFfmpeg home) = false) :
    find_ffmpeg env paths = none := by
  have hall : ∀ x ∈ paths, candidateMatches env x = false := by
    intro x hx
    unfold candidateMatches
    by_cases hb : (x == "ffmpeg") = true
    · have hxf : x = "ffmpeg" := by simpa using hb
      subst hxf
      rw [h2]
      simp
    · rw [Bool.not_eq_true] at hb
      rw [h1 x hx, hb]
      simp
  rw [find_ffmpeg_orElse env paths, List.find?_eq_none.mpr ?hnone]
  case hnone =>
    intro x hx
    simp [hall x hx]
  show fallbackResult env = none
  unfold fallbackResult
  cases hh : env.homeDir with
  | none => rfl
  | some home =>
    by_cases hex : env.pathExists (localFfmpeg home) = true
    · simp [hex, h3 home hh hex]
    · rw [Bool.not_eq_true] at hex
      simp [hex]

/-- C3 witness: empty filesystem, failing probes, no home directory. -/
theorem c3_witness :
    (∀ x ∈ FFMPEG_PATHS_MACOS,
      Env.pathExists ⟨fun _ => false, fun _ => none, none⟩ x = false)
    ∧ probeOk ⟨fun _ => false, fun _ => none, none⟩ "ffmpeg" = false
    ∧ find_ffmpeg ⟨fun _ => false, fun _ => none, none⟩ FFMPEG_PATHS_MACOS = none :=
  ⟨by decide, by decide,
   c3_not_found ⟨fun _ => false, fun _ => none, none⟩ FFMPEG_PATHS_MACOS
     (by decide) (by decide) (fun home hh => by simp at hh)⟩

/-- C4: the probe of a candidate succeeds exactly when the version subprocess
ran and exited with status 0; a spawn failure (`none`) or a non-zero exit
(`some false`) makes the probe count as failed, and such a candidate is
skipped with the scan continuing over the rest of the list, no error being
produced. -/
theorem c4_probe_semantics (env : Env) (p : String) (rest : List String)
    (h : env.probe p = none ∨ env.probe p = some false) :
    probeOk env p = false
    ∧ findInList env (p :: rest) = findInList env rest
    ∧ (∀ x, probeOk env x = true ↔ env.probe x = some true) := by
  have hpf : probeOk env p = false := by
    unfold probeOk
    rcases h with h | h <;> rw [h]
  refine ⟨hpf, ?_, ?_⟩
  · simp [findInList, hpf]
  · intro x
    unfold probeOk
    cases hx : env.probe x with
    | none => simp
    | some b => cases b <;> simp

/-- C4 witness: a spawn failure on the first candidate. -/
theorem c4_witness :
    (Env.probe ⟨fun _ => true, fun _ => none, none⟩ "/a/ffm" = none
      ∨ Env.probe ⟨fun _ => true, fun _ => none, none⟩ "/a/ffm" = some false)
    ∧ (probeOk ⟨fun _ => true, fun _ => none, none⟩ "/a/ffm" = false
      ∧ findInList ⟨fun _ => true, fun _ => none, none⟩ ["/a/ffm"]
          = findInList ⟨fun _ => true, fun _ => none, none⟩ []
      ∧ ∀ x, probeOk ⟨fun _ => true, fun _ => none, none⟩ x = true
          ↔ Env.probe ⟨fun _ => true, fun _ => none, none⟩ x = some true) :=
  ⟨Or.inl rfl,
   c4_probe_semantics ⟨fun _ => true, fun _ => none, none⟩ "/a/ffm" []
     (Or.inl rfl)⟩

/-- C8: when only finitely many of the candidate output paths exist, some
candidate is free, the loop terminates (the fuel-indexed loop returns a
result as soon as the fuel exceeds the first free index), and the result is
the first unoccupied candidate; moreover the counter is not bounded by the
reference behavior: for every bound `N` there is a filesystem state that
drives the returned index to exactly `N`. -/
theorem c8_terminates (fs : String → Bool) (input : String)
    (hfin : {n | fs (candidate input n) = true}.Finite) :
    (∃ h : ∃ n, fs (candidate input n) = false,
      ∃ n, get_unique_output_path fs input h = candidate input n
        ∧ fs (candidate input n) = false
        ∧ (∀ m, m < n → fs (candidate input m) = true)
        ∧ ∀ fuel, n < fuel →
            uniqueLoopFuel fs input 0 fuel = some (candidate input n))
    ∧ ∀ N : Nat, ∃ fs2 : String → Bool,
        ∃ h2 : ∃ k, fs2 (candidate input k) = false,
          get_unique_output_path fs2 input h2 = candidate input N
          ∧ ∀ m, m < N → fs2 (candidate input m) = true := by
  constructor
  · obtain ⟨n0, hn0⟩ := (Set.Finite.infinite_compl hfin).nonempty
    have h : ∃ n, fs (candidate input n) = false := by
      refine ⟨n0, ?_⟩
      simp only [Set.mem_compl_iff, Set.mem_setOf_eq] at hn0
      revert hn0
      cases fs (candidate input n0) <;> simp
    exact ⟨h, get_unique_spec fs input h⟩
  · intro N
    set fs2 : String → Bool :=
      fun s => (List.range N).any (fun m => candidate input m == s) with hfs2
    have hbusy : ∀ m, m < N → fs2 (candidate input m) = true := by
      intro m hm
      rw [hfs2]
      simp only [List.any_eq_true, List.mem_range]
      exact ⟨m, hm, by simp⟩
    have hfree : fs2 (candidate input N) = false := by
      rw [hfs2]
      rw [Bool.eq_false_iff]
      intro htrue
      simp only [List.any_eq_true, List.mem_range, beq_iff_eq] at htrue
      obtain ⟨m, hm, heq⟩ := htrue
      have := candidate_inj input heq
      omega
    have h2 : ∃ k, fs2 (candidate input k) = false := ⟨N, hfree⟩
    refine ⟨fs2, h2, ?_, hbusy⟩
    have hfind : Nat.find h2 = N := by
      rw [Nat.find_eq_iff h2]
      refine ⟨hfree, ?_⟩
      intro m hm
      rw [hbusy m hm]
      simp
    unfold get_unique_output_path
    rw [hfind]

/-- C8 witness: the empty filesystem state has a finite (empty) set of
occupied candidates. -/
theorem c8_witness :
    {n | (fun _ : String => false) (candidate "/tmp/a.mkv" n) = true}.Finite
    ∧ ((∃ h : ∃ n, (fun _ : String => false) (candidate "/tmp/a.mkv" n) = false,
        ∃ n, get_unique_output_path (fun _ : String => false) "/tmp/a.mkv" h
            = candidate "/tmp/a.mkv" n
          ∧ (fun _ : String => false) (candidate "/tmp/a.mkv" n) = false
          ∧ (∀ m, m < n →
              (fun _ : String => false) (candidate "/tmp/a.mkv" m) = true)
          ∧ ∀ fuel, n < fuel →
              uniqueLoopFuel (fun _ : String => false) "/tmp/a.mkv" 0 fuel
                = some (candidate "/tmp/a.mkv" n))
      ∧ ∀ N : Nat, ∃ fs2 : String → Bool,
          ∃ h2 : ∃ k, fs2 (candidate "/tmp/a.mkv" k) = false,
            get_unique_output_path fs2 "/tmp/a.mkv" h2 = candidate "/tmp/a.mkv" N
            ∧ ∀ m, m < N → fs2 (candidate "/tmp/a.mkv" m) = true) :=
  ⟨by simp, c8_terminates (fun _ : String => false) "/tmp/a.mkv" (by simp)⟩

/-- C9: the locator and the path generator only read the filesystem: their
instrumented variants compute the same results, their effect traces contain
existence checks and version probes but no write-class effect, and replaying
the traces leaves the set of existing paths unchanged. -/
theorem c9_read_only (env : Env) (paths : List String) (fs : String → Bool)
    (input : String) (h : ∃ n, fs (candidate input n) = false) :
    (find_ffmpegT env paths).1 = find_ffmpeg env paths
    ∧ (get_unique_output_pathT fs input h).1 = get_unique_output_path fs input h
    ∧ (∀ e ∈ (find_ffmpegT env paths).2, e.isWrite = false)
    ∧ (∀ e ∈ (get_unique_output_pathT fs input h).2, e.isWrite = false)
    ∧ applyEffects (find_ffmpegT env paths).2 env.pathExists = env.pathExists
    ∧ applyEffects (get_unique_output_pathT fs input h).2 fs = fs :=
  ⟨find_ffmpegT_fst env paths, rfl,
   find_ffmpegT_no_write env paths,
   get_unique_output_pathT_no_write fs input h,
   applyEffects_of_no_write _ _ (find_ffmpegT_no_write env paths),
   applyEffects_of_no_write _ _ (get_unique_output_pathT_no_write fs input h)⟩

/-- C9 witness. -/
theorem c9_witness :
    (∃ n, (fun _ : String => false) (candidate "/tmp/a.mkv" n) = false)
    ∧ ((find_ffmpegT ⟨fun _ => false, fun _ => none, none⟩ FFMPEG_PATHS_MACOS).1
        = find_ffmpeg ⟨fun _ => false, fun _ => none, none⟩ FFMPEG_PATHS_MACOS
      ∧ (get_unique_output_pathT (fun _ : String => false) "/tmp/a.mkv" ⟨0, rfl⟩).1
        = get_unique_output_path (fun _ : String => false) "/tmp/a.mkv" ⟨0, rfl⟩
      ∧ (∀ e ∈ (find_ffmpegT ⟨fun _ => false, fun _ => none, none⟩
            FFMPEG_PATHS_MACOS).2, e.isWrite = false)
      ∧ (∀ e ∈ (get_unique_output_pathT (fun _ : String => false) "/tmp/a.mkv"
            ⟨0, rfl⟩).2, e.isWrite = false)
      ∧ applyEffects (find_ffmpegT ⟨fun _ => false, fun _ => none, none⟩
            FFMPEG_PATHS_MACOS).2
          (Env.pathExists ⟨fun _ => false, fun _ => none, none⟩)
          = Env.pathExists ⟨fun _ => false, fun _ => none, none⟩
      ∧ applyEffects (get_unique_output_pathT (fun _ : String => false)
            "/tmp/a.mkv" ⟨0, rfl⟩).2 (fun _ : String => false)
          = (fun _ : String => false)) :=
  ⟨⟨0, rfl⟩,
   c9_read_only ⟨fun _ => false, fun _ => none, none⟩ FFMPEG_PATHS_MACOS
     (fun _ : String => false) "/tmp/a.mkv" ⟨0, rfl⟩⟩

/-- C10: at the `convert_file` boundary a locator miss is escalated: when
`find_ffmpeg` yields `none`, `convert_file` returns
`Err("ffmpeg not found")`, and its effect trace is exactly the locator's —
no output-path existence check and no conversion spawn happen. -/
theorem c10_not_found_error (env : ConvEnv) (paths : List String)
    (input : String)
    (h : ∃ n, env.pathExists (candidate input n) = false)
    (hnone : find_ffmpeg env.toEnv paths = none) :
    convert_file env paths input h = .error "ffmpeg not found"
    ∧ (convert_fileT env paths input h).2 = (find_ffmpegT env.toEnv paths).2 := by
  have hfst := find_ffmpegT_fst env.toEnv paths
  rw [hnone] at hfst
  constructor
  · unfold convert_file
    rw [hnone]
  · unfold convert_fileT
    rcases hT : find_ffmpegT env.toEnv paths with ⟨r, es⟩
    rw [hT] at hfst
    simp only at hfst
    subst hfst
    rfl

/-- C10 witness: empty filesystem, no home directory, so the locator misses. -/
theorem c10_witness :
    (∃ n, (fun _ : String => false) (candidate "/tmp/a.mkv" n) = false)
    ∧ find_ffmpeg
        (ConvEnv.toEnv ⟨⟨fun _ => false, fun _ => none, none⟩,
          fun _ _ _ => RunOutcome.spawnFailure ""⟩) FFMPEG_PATHS_MACOS = none
    ∧ (convert_file ⟨⟨fun _ => false, fun _ => none, none⟩,
          fun _ _ _ => RunOutcome.spawnFailure ""⟩ FFMPEG_PATHS_MACOS
          "/tmp/a.mkv" ⟨0, rfl⟩ = .error "ffmpeg not found"
      ∧ (convert_fileT ⟨⟨fun _ => false, fun _ => none, none⟩,
            fun _ _ _ => RunOutcome.spawnFailure ""⟩ FFMPEG_PATHS_MACOS
            "/tmp/a.mkv" ⟨0, rfl⟩).2
        = (find_ffmpegT (ConvEnv.toEnv ⟨⟨fun _ => false, fun _ => none, none⟩,
            fun _ _ _ => RunOutcome.spawnFailure ""⟩) FFMPEG_PATHS_MACOS).2) :=
  ⟨⟨0, rfl⟩, by decide,
   c10_not_found_error ⟨⟨fun _ => false, fun _ => none, none⟩,
       fun _ _ _ => RunOutcome.spawnFailure ""⟩ FFMPEG_PATHS_MACOS
     "/tmp/a.mkv" ⟨0, rfl⟩ (by decide)⟩

end MkvToMp4
